import Mathlib

/-!
Formal model of the mcp-utility-tools server core, translated from the
request handler in src/unnamed/part_001 (the served index-v2.ts): a
namespaced TTL cache, a per-operation retry and backoff tracker, a
fixed-window rate limiter and a bounded-concurrency batch runner.
Wall-clock instants and durations are integer milliseconds (the values
of Date.now and of the numeric tool arguments); JSON values stored in
the cache are an abstract type parameter.
-/

namespace McpUtility

/-! ## TTL cache (part_001 lines 12-18, 274-276, 393-480) -/

/-- One cache entry: the stored value and its absolute expiry instant in
milliseconds (interface CacheEntry, lines 13-16). -/
structure CacheEntry (A : Type) where
  value : A
  expiresAt : Int
deriving DecidableEq

/-- The cache map (line 18), modelled as an optional lookup function from
composite string keys to entries. -/
def CacheStore (A : Type) : Type := String → Option (CacheEntry A)

/-- The empty cache. -/
def emptyCache {A : Type} : CacheStore A := fun _ => none

/-- Composite cache key: the helper getCacheKey (lines 274-276) returns the
string namespace ++ ":" ++ key. -/
def getCacheKey (key : String) (ns : String) : String := ns ++ ":" ++ key

/-- Result record of the cache_get tool: the found flag, the value when
found, and the expires_in_seconds field (floor of the remaining life in
seconds, line 435). -/
structure CacheGetResult (A : Type) where
  found : Bool
  value : Option A
  expiresIn : Option Int
deriving DecidableEq

/-- The cache_get handler (lines 393-439): look the composite key up; a
missing entry is a miss; an entry with expiresAt less than or equal to now
is deleted from the store and reported as a miss; otherwise the value is
returned and the store is untouched. -/
def cache_get {A : Type} (st : CacheStore A) (key : String) (ns : String) (now : Int) :
    CacheGetResult A × CacheStore A :=
  let ck := getCacheKey key ns
  match st ck with
  | none => ({ found := false, value := none, expiresIn := none }, st)
  | some e =>
    if e.expiresAt ≤ now then
      ({ found := false, value := none, expiresIn := none },
       fun k => if k = ck then none else st k)
    else
      ({ found := true, value := some e.value,
         expiresIn := some ((e.expiresAt - now).fdiv 1000) }, st)

/-- Result record of the cache_put tool (lines 448-460); the handler always
reports success. -/
structure CachePutResult where
  success : Bool
deriving DecidableEq

/-- The cache_put handler (lines 441-461): store the value under the
composite key with expiresAt = now + ttl_seconds * 1000, overwriting any
previous entry.  The handler performs no range validation of ttl_seconds:
the [1, 86400] bounds appear only in the declared input schema
(lines 128-134). -/
def cache_put {A : Type} (st : CacheStore A) (key : String) (v : A)
    (ttlSeconds : Int) (ns : String) (now : Int) :
    CachePutResult × CacheStore A :=
  let ck := getCacheKey key ns
  let e : CacheEntry A := { value := v, expiresAt := now + ttlSeconds * 1000 }
  ({ success := true }, fun k => if k = ck then some e else st k)

/-- The cache_delete handler (lines 463-480): remove the composite key,
reporting whether it existed. -/
def cache_delete {A : Type} (st : CacheStore A) (key : String) (ns : String) :
    Bool × CacheStore A :=
  let ck := getCacheKey key ns
  ((st ck).isSome, fun k => if k = ck then none else st k)

/-! ## Retry tracker (part_001 lines 20-25, 289-391) -/

/-- Per-operation retry metadata (lines 21-25). -/
structure RetryMeta where
  attempts : Nat
  lastAttempt : Int
  success : Bool
deriving DecidableEq

/-- The retryMetadata map, modelled as an optional lookup function. -/
def RetryStore : Type := String → Option RetryMeta

/-- The empty retry store. -/
def emptyRetryStore : RetryStore := fun _ => none

/-- Get-or-create of retry metadata (lines 300-304): a missing id behaves
as attempts 0, lastAttempt 0, success false. -/
def getMeta (st : RetryStore) (id : String) : RetryMeta :=
  (st id).getD { attempts := 0, lastAttempt := 0, success := false }

/-- The status strings the retry_operation handler can return. -/
inductive RetryStatus
  | already_succeeded
  | max_retries_exceeded
  | retry_delayed
  | ready_to_execute
  | execute_attempt
deriving DecidableEq

/-- Result record of the retry_operation tool: the status, the attempts
count reported with it (attempt_number in the execute branch), the wait_ms
field of the retry_delayed branch and the next_delay_ms field of the
ready_to_execute branch. -/
structure RetryResult where
  status : RetryStatus
  attempts : Nat
  waitMs : Option Int
  nextDelayMs : Option Int
deriving DecidableEq

/-- One retry_operation call: the operation id, the max_retries and
initial_delay_ms and should_execute arguments, and the Date.now value at
the instant of the call.  The operation_type and operation_data arguments
are echoed back unchanged by the handler and carry no state, so they are
not modelled. -/
structure RetryCall where
  opId : String
  maxRetries : Nat
  initialDelayMs : Int
  shouldExecute : Bool
  now : Int
deriving DecidableEq

/-- The retry_operation handler (lines 289-391), branch for branch:
success short-circuits (lines 307-319); attempts at or above max_retries
short-circuits (lines 321-333); within the backoff window of
initial_delay_ms * 2 ^ attempts the call is delayed without mutation
(lines 335-353); with should_execute false the call is a dry run
(lines 355-369); otherwise attempts is incremented and lastAttempt set to
now (lines 371-390). -/
def retry_operation (st : RetryStore) (c : RetryCall) : RetryResult × RetryStore :=
  let m := getMeta st c.opId
  if m.success then
    ({ status := .already_succeeded, attempts := m.attempts,
       waitMs := none, nextDelayMs := none }, st)
  else if c.maxRetries ≤ m.attempts then
    ({ status := .max_retries_exceeded, attempts := m.attempts,
       waitMs := none, nextDelayMs := none }, st)
  else
    let timeSince := c.now - m.lastAttempt
    let requiredDelay := c.initialDelayMs * 2 ^ m.attempts
    if 0 < m.attempts ∧ timeSince < requiredDelay then
      ({ status := .retry_delayed, attempts := m.attempts,
         waitMs := some (requiredDelay - timeSince), nextDelayMs := none }, st)
    else if c.shouldExecute = false then
      ({ status := .ready_to_execute, attempts := m.attempts,
         waitMs := none, nextDelayMs := some requiredDelay }, st)
    else
      let m2 : RetryMeta :=
        { attempts := m.attempts + 1, lastAttempt := c.now, success := m.success }
      ({ status := .execute_attempt, attempts := m2.attempts,
         waitMs := none, nextDelayMs := none },
       fun x => if x = c.opId then some m2 else st x)

/-- Run a sequence of retry_operation calls against a store, keeping the
final store. -/
def runRetryCalls (st : RetryStore) (calls : List RetryCall) : RetryStore :=
  calls.foldl (fun s c => (retry_operation s c).2) st

/-! ## Rate limiter (part_001 lines 270-271, 640-684) -/

/-- Per-resource window state (line 271). -/
structure RateWindow where
  count : Nat
  resetAt : Int
deriving DecidableEq

/-- Result record of the rate_limit_check tool (lines 670-683):
current_count is read from the window after the increment. -/
structure RateResult where
  allowed : Bool
  currentCount : Nat
  remaining : Nat
  resetInSeconds : Int
deriving DecidableEq

/-- The rate_limit_check handler (lines 640-684) for one resource: reset
the window when absent or expired; allowed is count < max_requests;
remaining is max(0, max_requests - count), computed before the increment
(truncated subtraction on Nat); reset_in_seconds is the ceiling of the
remaining window in seconds; the count is incremented only when allowed
and increment are both set. -/
def rate_limit_check (w0 : Option RateWindow) (maxRequests : Nat)
    (windowSeconds : Int) (increment : Bool) (now : Int) :
    RateResult × RateWindow :=
  let w : RateWindow :=
    match w0 with
    | none => { count := 0, resetAt := now + windowSeconds * 1000 }
    | some w =>
      if w.resetAt ≤ now then { count := 0, resetAt := now + windowSeconds * 1000 } else w
  let allowed : Bool := w.count < maxRequests
  let remaining : Nat := maxRequests - w.count
  let resetIn : Int := (w.resetAt - now + 999).fdiv 1000
  let w2 : RateWindow := if allowed && increment then { w with count := w.count + 1 } else w
  ({ allowed := allowed, currentCount := w2.count, remaining := remaining,
     resetInSeconds := resetIn }, w2)

/-- Run consecutive rate_limit_check calls with fixed arguments on one
resource at the given instants, collecting each result. -/
def rateSeq (maxRequests : Nat) (windowSeconds : Int) (increment : Bool) :
    Option RateWindow → List Int → List RateResult
  | _, [] => []
  | w0, t :: ts =>
    let r := rate_limit_check w0 maxRequests windowSeconds increment t
    r.1 :: rateSeq maxRequests windowSeconds increment (some r.2) ts

/-! ## Batch runner (part_001 lines 521-638)

The handler keeps a pending queue, an in-progress map and a results array
and loops: it launches queued operations while the in-progress size is
below the concurrency argument (serving a live cache entry immediately
instead of launching, lines 542-554), then awaits the race of the
in-progress promises (lines 616-618).  When a promise settles, its
handlers (lines 590-612) push a success or failure result, clear the
pending queue on failure when continue_on_error is false, and remove the
promise from the in-progress map.  Settlement order is nondeterministic
real time, so the model takes it as a parameter: every operation carries
an oracle bit for whether a live cache entry exists when it is dequeued
(use_cache enabled and the key batch:type:data unexpired, lines 542-545)
and an oracle bit for whether its simulated work settles before its
timeout_ms timer (lines 557-585, the only failure mode), and a schedule
chooses which in-flight operation settles at each wait.  A failing
settlement also rejects the awaited Promise.race, which has no rejection
handler, so the exception propagates out of the loop and the whole call
throws McpError InternalError (lines 616-618 with 692-701): the model
records this as an aborted run. -/

/-- One batch operation together with its environment oracle: cached
abstracts a live cache hit at dequeue time, ok abstracts the simulated
work beating the timeout_ms timer.  The type and data fields only feed
the cache key and the echoed payload, so they are folded into the
oracle bits. -/
structure BatchOp where
  id : String
  cached : Bool
  ok : Bool
deriving DecidableEq

/-- One entry pushed to the results array (lines 546-551, 592-596,
599-603): the operation id, the success flag, and whether it was served
from the cache.  The result and error payloads are not modelled. -/
structure BatchResult where
  id : String
  success : Bool
  fromCache : Bool
deriving DecidableEq

/-- Observable scheduling events of one run: an operation is launched
into the in-progress map, settles out of it, or is served from the
cache without launching. -/
inductive BatchEvent
  | launched (op : BatchOp)
  | settled (op : BatchOp)
  | cacheHit (op : BatchOp)
deriving DecidableEq

/-- State of the scheduling loop: the pending queue, the in-progress
operations in insertion order, the results array, and the event trace. -/
structure BatchState where
  queue : List BatchOp
  inFlight : List BatchOp
  results : List BatchResult
  events : List BatchEvent
deriving DecidableEq

/-- The inner launch loop (lines 538-613): while the queue is nonempty
and the in-progress size is below the concurrency argument, dequeue the
next operation; a cache hit pushes a cached success result immediately
(lines 542-554), otherwise the operation is launched into the
in-progress map. -/
def launchLoop (c : Nat) : List BatchOp → List BatchOp → List BatchResult →
    List BatchEvent → BatchState
  | [], fl, rs, evs => ⟨[], fl, rs, evs⟩
  | op :: rest, fl, rs, evs =>
    if fl.length < c then
      if op.cached then
        launchLoop c rest fl (rs ++ [⟨op.id, true, true⟩]) (evs ++ [.cacheHit op])
      else
        launchLoop c rest (fl ++ [op]) rs (evs ++ [.launched op])
    else ⟨op :: rest, fl, rs, evs⟩

/-- The launch phase applied to a loop state. -/
def launchPhase (c : Nat) (st : BatchState) : BatchState :=
  launchLoop c st.queue st.inFlight st.results st.events

/-- How one iteration of the outer loop ends once no further settlement
happens: the loop exits normally (queue and in-progress both empty,
line 536), spins forever (nonempty queue that can never launch, the
concurrency 0 case), aborts because the awaited race rejected
(lines 616-618), or the iteration bound of the model is exhausted
(never reached from runBatchLoop, see runLoop_exit_ne_outOfFuel). -/
inductive LoopExit
  | finished
  | stuck
  | aborted (msg : String)
  | outOfFuel
deriving DecidableEq

/-- The outer scheduling loop (lines 536-619).  Each iteration runs the
launch phase; if nothing is in flight the loop either exits or spins;
otherwise the schedule picks one in-flight operation to settle first.
Settlement pushes its result and, on failure with continue_on_error
false, clears the pending queue (lines 590-612); a failure then rejects
the awaited race and aborts the whole call.  The fuel argument bounds
the iterations; each iteration settles exactly one operation, so
ops.length + 1 fuel is never exhausted. -/
def runLoop (c : Nat) (coe : Bool) : Nat → List Nat → BatchState →
    BatchState × LoopExit
  | 0, _, st => (st, .outOfFuel)
  | fuel + 1, sched, st =>
    let st1 := launchPhase c st
    match st1.inFlight with
    | [] => if st1.queue.isEmpty then (st1, .finished) else (st1, .stuck)
    | f0 :: rest =>
      let j := (sched.headD 0) % (f0 :: rest).length
      let op := (f0 :: rest).getD j f0
      let st2 : BatchState :=
        { queue := if op.ok || coe then st1.queue else []
          inFlight := (f0 :: rest).eraseIdx j
          results := st1.results ++ [⟨op.id, op.ok, false⟩]
          events := st1.events ++ [.settled op] }
      if op.ok then runLoop c coe fuel sched.tail st2
      else (st2, .aborted ("Operation " ++ op.id ++ " timed out"))

/-- Run the scheduling loop from the initial state of a batch_operation
call. -/
def runBatchLoop (ops : List BatchOp) (c : Nat) (coe : Bool) (sched : List Nat) :
    BatchState × LoopExit :=
  runLoop c coe (ops.length + 1) sched ⟨ops, [], [], []⟩

/-- The final reindexing (lines 621-624): the results array is mapped back
to the order of the input operations by searching results for each input
id; an id with no recorded result yields none (undefined, serialised as
null). -/
def sortedResults (ops : List BatchOp) (rs : List BatchResult) :
    List (Option BatchResult) :=
  ops.map (fun op => rs.find? (fun r => r.id == op.id))

/-- Outcome of a whole batch_operation call: a returned results array
(lines 626-637), a thrown McpError InternalError (lines 692-701), or a
loop that never terminates. -/
inductive BatchOutcome
  | ok (results : List (Option BatchResult))
  | errored (msg : String)
  | hangs
deriving DecidableEq

/-- The batch_operation handler (lines 521-638) as observed by the
caller. -/
def batch_operation (ops : List BatchOp) (c : Nat) (coe : Bool) (sched : List Nat) :
    BatchOutcome :=
  match runBatchLoop ops c coe sched with
  | (st, .finished) => .ok (sortedResults ops st.results)
  | (_, .aborted m) => .errored ("Tool execution failed: " ++ m)
  | (_, .stuck) => .hangs
  | (_, .outOfFuel) => .hangs

/-! ## Observable quantities of a batch run -/

/-- Running in-flight count: how one event changes the size of the
in-progress map. -/
def evStep (k : Nat) (e : BatchEvent) : Nat :=
  match e with
  | .launched _ => k + 1
  | .settled _ => k - 1
  | .cacheHit _ => k

/-- The in-flight count after a list of events, starting from k. -/
def kAfter (k : Nat) (evs : List BatchEvent) : Nat := evs.foldl evStep k

/-- Check that, starting from in-flight count k, every launch in the
event list happens only while the count is strictly below c (so the
count never exceeds c at any step). -/
def chkBound (c : Nat) : Nat → List BatchEvent → Bool
  | _, [] => true
  | k, .launched _ :: rest => decide (k + 1 ≤ c) && chkBound c (k + 1) rest
  | k, .settled _ :: rest => chkBound c (k - 1) rest
  | k, .cacheHit _ :: rest => chkBound c k rest

/-- Loop-state invariant behind the concurrency bound: the event trace
respects the bound and its running count agrees with the in-progress
size, which is at most c. -/
def BatchInv (c : Nat) (st : BatchState) : Prop :=
  chkBound c 0 st.events = true ∧ kAfter 0 st.events = st.inFlight.length ∧
  st.inFlight.length ≤ c

/-- Accounting invariant behind the ordering guarantee: every input
operation is either already recorded in the results (under its id), or
in flight, or still queued. -/
def idsCovered (ops : List BatchOp) (st : BatchState) : Prop :=
  ∀ op ∈ ops, (∃ r ∈ st.results, r.id = op.id) ∨ op ∈ st.inFlight ∨ op ∈ st.queue

/-! ## Invariants of the retry store -/

/-- One retry_operation call never sets the success flag of any entry:
the only store mutation (lines 371-374) updates attempts and lastAttempt
and copies the existing flag. -/
theorem retry_op_preserves_success_false (st : RetryStore) (c : RetryCall)
    (h : ∀ y, (getMeta st y).success = false) (y : String) :
    (getMeta ((retry_operation st c).2) y).success = false := by
  simp only [retry_operation, h c.opId, Bool.false_eq_true, if_false]
  split_ifs with h1 h2 h3
  · exact h y
  · exact h y
  · exact h y
  · by_cases hy : y = c.opId
    · subst hy
      simp [getMeta, h c.opId]
    · simp only [getMeta, hy, if_false]
      exact h y

/-- Every store reachable from the empty retry store has every success
flag false. -/
theorem runRetryCalls_success_false (calls : List RetryCall) :
    ∀ y, (getMeta (runRetryCalls emptyRetryStore calls) y).success = false := by
  suffices h : ∀ st : RetryStore, (∀ y, (getMeta st y).success = false) →
      ∀ y, (getMeta (runRetryCalls st calls) y).success = false by
    refine h emptyRetryStore (fun y => ?_)
    simp [getMeta, emptyRetryStore]
  induction calls with
  | nil => intro st h y; exact h y
  | cons c cs ih =>
    intro st h y
    exact ih ((retry_operation st c).2) (retry_op_preserves_success_false st c h) y

/-- One retry_operation call keeps the attempts count of an id at or
below a bound R, provided the call uses max_retries R whenever it
addresses that id: the only increment (line 372) is guarded by
attempts < max_retries (lines 321-333). -/
theorem retry_op_attempts_le (st : RetryStore) (c : RetryCall) (x : String) (R : Nat)
    (hc : c.opId = x → c.maxRetries = R)
    (hx : (getMeta st x).attempts ≤ R) :
    (getMeta ((retry_operation st c).2) x).attempts ≤ R := by
  simp only [retry_operation]
  split_ifs with h1 h2 h3 h4
  · exact hx
  · exact hx
  · exact hx
  · exact hx
  · by_cases hy : x = c.opId
    · subst hy
      have hR : c.maxRetries = R := hc rfl
      rw [hR] at h2
      simp only [getMeta] at h2 ⊢
      simp only [if_true, ite_true, eq_self_iff_true, Option.getD_some]
      omega
    · simp only [getMeta]
      rw [if_neg hy]
      exact hx

/-- The attempts count of an id stays at or below R over any call
sequence whose calls on that id all use max_retries R, starting from a
store already within the bound. -/
theorem runRetryCalls_attempts_le_of (calls : List RetryCall) :
    ∀ (st : RetryStore) (x : String) (R : Nat),
      (getMeta st x).attempts ≤ R →
      (∀ c ∈ calls, c.opId = x → c.maxRetries = R) →
      (getMeta (runRetryCalls st calls) x).attempts ≤ R := by
  induction calls with
  | nil => intro st x R h _; exact h
  | cons c cs ih =>
    intro st x R h hall
    exact ih ((retry_operation st c).2) x R
      (retry_op_attempts_le st c x R (hall c (List.mem_cons_self c cs)) h)
      (fun d hd => hall d (List.mem_cons_of_mem c hd))

/-- The attempts count of an id never exceeds R over any sequence of
calls from the empty store whose calls on that id all use
max_retries R. -/
theorem runRetryCalls_attempts_le (calls : List RetryCall) (x : String) (R : Nat)
    (hfix : ∀ c ∈ calls, c.opId = x → c.maxRetries = R) :
    (getMeta (runRetryCalls emptyRetryStore calls) x).attempts ≤ R := by
  refine runRetryCalls_attempts_le_of calls emptyRetryStore x R ?_ hfix
  simp [getMeta, emptyRetryStore]

/-- Claim C2: for every operation id and fixed max_retries R, the stored
attempts count never exceeds R; once an id has accumulated R attempts
through execute_attempt results, every further retry_operation check on
that id with max_retries R returns status max_retries_exceeded (never
execute_attempt), reports the unchanged attempts count, and leaves the
store untouched (no increment, no truncation). -/
theorem retry_attempts_capped_at_max (R : Nat) (x : String) (calls : List RetryCall)
    (hfix : ∀ c ∈ calls, c.opId = x → c.maxRetries = R)
    (c2 : RetryCall) (hid : c2.opId = x) (hR : c2.maxRetries = R)
    (hacc : R ≤ (getMeta (runRetryCalls emptyRetryStore calls) x).attempts) :
    (getMeta (runRetryCalls emptyRetryStore calls) x).attempts = R ∧
    (retry_operation (runRetryCalls emptyRetryStore calls) c2).1.status =
      .max_retries_exceeded ∧
    (retry_operation (runRetryCalls emptyRetryStore calls) c2).1.attempts = R ∧
    (retry_operation (runRetryCalls emptyRetryStore calls) c2).2 =
      runRetryCalls emptyRetryStore calls := by
  have hle := runRetryCalls_attempts_le calls x R hfix
  have heq : (getMeta (runRetryCalls emptyRetryStore calls) x).attempts = R :=
    Nat.le_antisymm hle hacc
  have hsucc := runRetryCalls_success_false calls x
  refine ⟨heq, ?_, ?_, ?_⟩ <;>
    · simp only [retry_operation, hid, hsucc, Bool.false_eq_true, if_false]
      rw [if_pos (show c2.maxRetries ≤
            (getMeta (runRetryCalls emptyRetryStore calls) x).attempts by omega)]
      try simp [heq]

/-- Claim C2 witness: with max_retries 1, after one execute_attempt the
attempts count equals 1 and a further check returns max_retries_exceeded
without touching the store. -/
theorem retry_attempts_capped_at_max_witness :
    (∀ c ∈ [(⟨"op", 1, 100, true, 0⟩ : RetryCall)], c.opId = "op" → c.maxRetries = 1) ∧
    (1 ≤ (getMeta (runRetryCalls emptyRetryStore [⟨"op", 1, 100, true, 0⟩]) "op").attempts) ∧
    ((getMeta (runRetryCalls emptyRetryStore [⟨"op", 1, 100, true, 0⟩]) "op").attempts = 1 ∧
     (retry_operation (runRetryCalls emptyRetryStore [⟨"op", 1, 100, true, 0⟩])
        ⟨"op", 1, 100, true, 5000⟩).1.status = .max_retries_exceeded ∧
     (retry_operation (runRetryCalls emptyRetryStore [⟨"op", 1, 100, true, 0⟩])
        ⟨"op", 1, 100, true, 5000⟩).1.attempts = 1 ∧
     (retry_operation (runRetryCalls emptyRetryStore [⟨"op", 1, 100, true, 0⟩])
        ⟨"op", 1, 100, true, 5000⟩).2 =
       runRetryCalls emptyRetryStore [⟨"op", 1, 100, true, 0⟩]) :=
  ⟨by decide, by decide,
   retry_attempts_capped_at_max 1 "op" [⟨"op", 1, 100, true, 0⟩] (by decide)
     ⟨"op", 1, 100, true, 5000⟩ rfl rfl (by decide)⟩

/-- Claim C9: starting from the empty retry store, no sequence of
retry_operation calls ever sets a success flag, so every reachable entry
has success false and no call ever returns already_succeeded. -/
theorem retry_success_never_true (calls : List RetryCall) (x : String) (c : RetryCall) :
    (getMeta (runRetryCalls emptyRetryStore calls) x).success = false ∧
    (retry_operation (runRetryCalls emptyRetryStore calls) c).1.status ≠
      .already_succeeded := by
  refine ⟨runRetryCalls_success_false calls x, ?_⟩
  have hsucc := runRetryCalls_success_false calls c.opId
  simp only [retry_operation, hsucc, Bool.false_eq_true, if_false]
  split_ifs <;> simp

/-- Claim C6 counterexample: an id reachable from the empty store with
attempts 3 (three spaced execute_attempt calls under max_retries 10),
checked with max_retries 3, initial_delay_ms 100 at a moment only 100 ms
after the last attempt: attempts is positive and the elapsed time is
below requiredDelay 100 * 2 ^ 3 = 800, yet the call returns
max_retries_exceeded, not retry_delayed, because the max_retries guard
(lines 321-333) runs before the backoff guard (lines 335-353). -/
theorem retry_delayed_cex :
    0 < (getMeta (runRetryCalls emptyRetryStore
          [⟨"op", 10, 100, true, 0⟩, ⟨"op", 10, 100, true, 1000⟩,
           ⟨"op", 10, 100, true, 2000⟩]) "op").attempts ∧
    (2100 - (getMeta (runRetryCalls emptyRetryStore
          [⟨"op", 10, 100, true, 0⟩, ⟨"op", 10, 100, true, 1000⟩,
           ⟨"op", 10, 100, true, 2000⟩]) "op").lastAttempt <
        100 * 2 ^ (getMeta (runRetryCalls emptyRetryStore
          [⟨"op", 10, 100, true, 0⟩, ⟨"op", 10, 100, true, 1000⟩,
           ⟨"op", 10, 100, true, 2000⟩]) "op").attempts) ∧
    (retry_operation (runRetryCalls emptyRetryStore
          [⟨"op", 10, 100, true, 0⟩, ⟨"op", 10, 100, true, 1000⟩,
           ⟨"op", 10, 100, true, 2000⟩]) ⟨"op", 3, 100, true, 2100⟩).1.status =
      .max_retries_exceeded ∧
    (retry_operation (runRetryCalls emptyRetryStore
          [⟨"op", 10, 100, true, 0⟩, ⟨"op", 10, 100, true, 1000⟩,
           ⟨"op", 10, 100, true, 2000⟩]) ⟨"op", 3, 100, true, 2100⟩).1.status ≠
      .retry_delayed := by
  decide

/-- Claim C6 as amended: a retry_operation check on a reachable id with
attempts strictly between 0 and the max_retries of the call, issued while
the elapsed time since lastAttempt is below
requiredDelay = initial_delay_ms * 2 ^ attempts, returns retry_delayed
with wait_ms = requiredDelay - elapsed, which is strictly positive,
reports the unchanged attempts count, and leaves the store untouched. -/
theorem retry_delayed_before_backoff (calls : List RetryCall) (c : RetryCall)
    (hatt : 0 < (getMeta (runRetryCalls emptyRetryStore calls) c.opId).attempts)
    (hlt : (getMeta (runRetryCalls emptyRetryStore calls) c.opId).attempts < c.maxRetries)
    (hdel : c.now - (getMeta (runRetryCalls emptyRetryStore calls) c.opId).lastAttempt <
        c.initialDelayMs *
          2 ^ (getMeta (runRetryCalls emptyRetryStore calls) c.opId).attempts) :
    (retry_operation (runRetryCalls emptyRetryStore calls) c).1.status = .retry_delayed ∧
    (retry_operation (runRetryCalls emptyRetryStore calls) c).1.waitMs =
      some (c.initialDelayMs *
          2 ^ (getMeta (runRetryCalls emptyRetryStore calls) c.opId).attempts -
        (c.now - (getMeta (runRetryCalls emptyRetryStore calls) c.opId).lastAttempt)) ∧
    0 < c.initialDelayMs *
          2 ^ (getMeta (runRetryCalls emptyRetryStore calls) c.opId).attempts -
        (c.now - (getMeta (runRetryCalls emptyRetryStore calls) c.opId).lastAttempt) ∧
    (retry_operation (runRetryCalls emptyRetryStore calls) c).1.attempts =
      (getMeta (runRetryCalls emptyRetryStore calls) c.opId).attempts ∧
    (retry_operation (runRetryCalls emptyRetryStore calls) c).2 =
      runRetryCalls emptyRetryStore calls := by
  have hsucc := runRetryCalls_success_false calls c.opId
  have hmax : ¬ c.maxRetries ≤ (getMeta (runRetryCalls emptyRetryStore calls) c.opId).attempts :=
    by omega
  refine ⟨?_, ?_, by omega, ?_, ?_⟩ <;>
    · simp only [retry_operation, hsucc, Bool.false_eq_true, if_false, hmax]
      rw [if_pos ⟨hatt, hdel⟩]

/-- Claim C6 witness: after one execute_attempt at time 0, a check at
time 50 with max_retries 3 and initial_delay_ms 100 is delayed with
wait_ms 150 and no mutation. -/
theorem retry_delayed_before_backoff_witness :
    (0 < (getMeta (runRetryCalls emptyRetryStore [⟨"op", 3, 100, true, 0⟩]) "op").attempts ∧
     (getMeta (runRetryCalls emptyRetryStore [⟨"op", 3, 100, true, 0⟩]) "op").attempts < 3 ∧
     (50 - (getMeta (runRetryCalls emptyRetryStore [⟨"op", 3, 100, true, 0⟩]) "op").lastAttempt <
        100 * 2 ^ (getMeta (runRetryCalls emptyRetryStore [⟨"op", 3, 100, true, 0⟩]) "op").attempts)) ∧
    ((retry_operation (runRetryCalls emptyRetryStore [⟨"op", 3, 100, true, 0⟩])
        ⟨"op", 3, 100, true, 50⟩).1.status = .retry_delayed ∧
     (retry_operation (runRetryCalls emptyRetryStore [⟨"op", 3, 100, true, 0⟩])
        ⟨"op", 3, 100, true, 50⟩).1.waitMs =
       some (100 * 2 ^ (getMeta (runRetryCalls emptyRetryStore [⟨"op", 3, 100, true, 0⟩]) "op").attempts -
         (50 - (getMeta (runRetryCalls emptyRetryStore [⟨"op", 3, 100, true, 0⟩]) "op").lastAttempt)) ∧
     0 < 100 * 2 ^ (getMeta (runRetryCalls emptyRetryStore [⟨"op", 3, 100, true, 0⟩]) "op").attempts -
         (50 - (getMeta (runRetryCalls emptyRetryStore [⟨"op", 3, 100, true, 0⟩]) "op").lastAttempt) ∧
     (retry_operation (runRetryCalls emptyRetryStore [⟨"op", 3, 100, true, 0⟩])
        ⟨"op", 3, 100, true, 50⟩).1.attempts =
       (getMeta (runRetryCalls emptyRetryStore [⟨"op", 3, 100, true, 0⟩]) "op").attempts ∧
     (retry_operation (runRetryCalls emptyRetryStore [⟨"op", 3, 100, true, 0⟩])
        ⟨"op", 3, 100, true, 50⟩).2 =
       runRetryCalls emptyRetryStore [⟨"op", 3, 100, true, 0⟩]) :=
  ⟨⟨by decide, by decide, by decide⟩,
   retry_delayed_before_backoff [⟨"op", 3, 100, true, 0⟩] ⟨"op", 3, 100, true, 50⟩
     (by decide) (by decide) (by decide)⟩

/-- Claim C3: with max_requests 5, window_seconds 60 and increment true,
six consecutive checks on a fresh resource inside one window are allowed
five times and then refused, but remaining is computed before the
increment (line 663 runs before line 667), so the six calls report
remaining 5, 4, 3, 2, 1, 0 and current_count 1, 2, 3, 4, 5, 5 — not the
sequence 4, 3, 2, 1, 0 on the allowed calls that the specification and
the bundled test suite (test-utilities.ts line 159) expect. -/
theorem rate_limit_remaining_sequence :
    (rateSeq 5 60 true none [0, 0, 0, 0, 0, 0]).map
        (fun r => (r.allowed, r.remaining, r.currentCount)) =
      [(true, 5, 1), (true, 4, 2), (true, 3, 3), (true, 2, 4), (true, 1, 5),
       (false, 0, 5)] ∧
    (rateSeq 5 60 true none [0, 0, 0, 0, 0, 0]).map (fun r => r.remaining) ≠
      [4, 3, 2, 1, 0, 0] := by
  decide

/-- Claim C4: putting a value with an in-range ttl and reading the same
key and namespace before the ttl has elapsed finds the value and leaves
the store untouched; reading at or after the expiry instant misses and
deletes the entry as a side effect of the read. -/
theorem cache_put_get_ttl_roundtrip {A : Type} (st : CacheStore A) (k : String) (v : A)
    (ns : String) (ttl now now2 : Int) (h1 : 1 ≤ ttl) (h2 : ttl ≤ 86400) :
    (now2 < now + ttl * 1000 →
      (cache_get ((cache_put st k v ttl ns now).2) k ns now2).1.found = true ∧
      (cache_get ((cache_put st k v ttl ns now).2) k ns now2).1.value = some v ∧
      (cache_get ((cache_put st k v ttl ns now).2) k ns now2).2 =
        (cache_put st k v ttl ns now).2) ∧
    (now + ttl * 1000 ≤ now2 →
      (cache_get ((cache_put st k v ttl ns now).2) k ns now2).1.found = false ∧
      (cache_get ((cache_put st k v ttl ns now).2) k ns now2).2 (getCacheKey k ns) =
        none) := by
  constructor
  · intro hbefore
    have hexp : ¬ (now + ttl * 1000 ≤ now2) := by omega
    refine ⟨?_, ?_, ?_⟩ <;>
      simp [cache_get, cache_put, hexp]
  · intro hafter
    refine ⟨?_, ?_⟩ <;>
      simp [cache_get, cache_put, hafter]

/-- Claim C4 witness: a put with ttl 300 at time 0 is found at time 100
with the stored value and untouched store, and is missed and deleted at
time 300000. -/
theorem cache_put_get_ttl_roundtrip_witness :
    ((1 : Int) ≤ 300 ∧ (300 : Int) ≤ 86400) ∧
    ((100 : Int) < 0 + 300 * 1000 ∧
     (cache_get ((cache_put (emptyCache (A := Nat)) "k" 7 300 "default" 0).2)
        "k" "default" 100).1.found = true ∧
     (cache_get ((cache_put (emptyCache (A := Nat)) "k" 7 300 "default" 0).2)
        "k" "default" 100).1.value = some 7 ∧
     (cache_get ((cache_put (emptyCache (A := Nat)) "k" 7 300 "default" 0).2)
        "k" "default" 100).2 = (cache_put (emptyCache (A := Nat)) "k" 7 300 "default" 0).2) ∧
    ((0 : Int) + 300 * 1000 ≤ 300000 ∧
     (cache_get ((cache_put (emptyCache (A := Nat)) "k" 7 300 "default" 0).2)
        "k" "default" 300000).1.found = false ∧
     (cache_get ((cache_put (emptyCache (A := Nat)) "k" 7 300 "default" 0).2)
        "k" "default" 300000).2 (getCacheKey "k" "default") = none) :=
  ⟨⟨by decide, by decide⟩,
   ⟨by decide,
    (cache_put_get_ttl_roundtrip (emptyCache (A := Nat)) "k" 7 "default" 300 0 100
      (by decide) (by decide)).1 (by decide)⟩,
   ⟨by decide,
    (cache_put_get_ttl_roundtrip (emptyCache (A := Nat)) "k" 7 "default" 300 0 300000
      (by decide) (by decide)).2 (by decide)⟩⟩

/-- Claim C5: out-of-range arguments are not rejected and do mutate
state: cache_put with ttl_seconds 0 (below the schema range) and with
ttl_seconds 100000 (above it) reports success and writes the entry, and
batch_operation with concurrency 0 is not rejected either — it spins in
the scheduling loop forever — while concurrency 25 simply runs.  The
range bounds of the schema (ttl in [1, 86400], concurrency in [1, 20])
are never enforced by the handlers. -/
theorem out_of_range_inputs_not_rejected :
    (cache_put (emptyCache (A := Nat)) "k" 42 0 "default" 5000).1.success = true ∧
    (cache_put (emptyCache (A := Nat)) "k" 42 0 "default" 5000).2
        (getCacheKey "k" "default") = some { value := 42, expiresAt := 5000 } ∧
    (cache_put (emptyCache (A := Nat)) "k" 42 100000 "default" 0).2
        (getCacheKey "k" "default") = some { value := 42, expiresAt := 100000000 } ∧
    batch_operation [⟨"a", false, true⟩] 0 true [] = .hangs ∧
    batch_operation [⟨"a", false, true⟩] 25 true [0] =
      .ok [some { id := "a", success := true, fromCache := false }] := by
  decide

/-- Claim C10: cache_get, cache_put and cache_delete all address entries
through getCacheKey, the plain concatenation namespace ++ ":" ++ key, so
two argument pairs alias one stored entry exactly when the concatenations
are equal; in particular the distinct pairs (namespace "a:b", key "c")
and (namespace "a", key "b:c") share the composite key "a:b:c": a put
under the first pair is observed by a get under the second, and a delete
under the second removes the entry stored under the first. -/
theorem cache_key_aliasing :
    (∀ k ns, getCacheKey k ns = ns ++ ":" ++ k) ∧
    (∀ k1 n1 k2 n2 : String,
      getCacheKey k1 n1 = getCacheKey k2 n2 ↔ n1 ++ ":" ++ k1 = n2 ++ ":" ++ k2) ∧
    (∀ (st : CacheStore Nat) (v : Nat),
      (cache_get ((cache_put st "c" v 300 "a:b" 0).2) "b:c" "a" 0).1.found = true ∧
      (cache_get ((cache_put st "c" v 300 "a:b" 0).2) "b:c" "a" 0).1.value = some v ∧
      (cache_delete ((cache_put st "c" v 300 "a:b" 0).2) "b:c" "a").2
        (getCacheKey "c" "a:b") = none) := by
  refine ⟨fun k ns => rfl, fun k1 n1 k2 n2 => Iff.rfl, fun st v => ?_⟩
  have hkey : getCacheKey "b:c" "a" = getCacheKey "c" "a:b" := by decide
  refine ⟨?_, ?_, ?_⟩ <;>
    simp [cache_get, cache_put, cache_delete, hkey, getCacheKey]

/-! ## Invariants of the batch scheduling loop -/

/-- The running in-flight count composes over appended event lists. -/
theorem kAfter_append (k : Nat) (xs ys : List BatchEvent) :
    kAfter k (xs ++ ys) = kAfter (kAfter k xs) ys := by
  simp [kAfter, List.foldl_append]

/-- The bound check composes over appended event lists. -/
theorem chkBound_append (c : Nat) (k : Nat) (xs ys : List BatchEvent) :
    chkBound c k (xs ++ ys) = (chkBound c k xs && chkBound c (kAfter k xs) ys) := by
  induction xs generalizing k with
  | nil => simp [chkBound, kAfter]
  | cons e xs ih =>
    cases e <;>
      simp [chkBound, kAfter, evStep, ih, Bool.and_assoc]

/-- The launch loop preserves the concurrency invariant: it launches only
while the in-progress size is strictly below c (line 538). -/
theorem launchLoop_inv (c : Nat) (q : List BatchOp) :
    ∀ (fl : List BatchOp) (rs : List BatchResult) (evs : List BatchEvent),
      chkBound c 0 evs = true → kAfter 0 evs = fl.length → fl.length ≤ c →
      BatchInv c (launchLoop c q fl rs evs) := by
  induction q with
  | nil => intro fl rs evs h1 h2 h3; exact ⟨h1, h2, h3⟩
  | cons op rest ih =>
    intro fl rs evs h1 h2 h3
    simp only [launchLoop]
    split_ifs with hlen hc
    · refine ih fl _ _ ?_ ?_ h3
      · rw [chkBound_append, h1]
        simp [chkBound]
      · rw [kAfter_append, h2]
        simp [kAfter, evStep]
    · refine ih (fl ++ [op]) _ _ ?_ ?_ ?_
      · rw [chkBound_append, h1]
        simp [chkBound, h2]
        omega
      · rw [kAfter_append, h2]
        simp [kAfter, evStep]
      · simp only [List.length_append, List.length_cons, List.length_nil]
        omega
    · exact ⟨h1, h2, h3⟩

/-- The outer loop preserves the concurrency invariant through every
launch phase and settlement. -/
theorem runLoop_inv (c : Nat) (coe : Bool) (fuel : Nat) :
    ∀ (sched : List Nat) (st : BatchState), BatchInv c st →
      BatchInv c (runLoop c coe fuel sched st).1 := by
  induction fuel with
  | zero => intro sched st h; exact h
  | succ n ih =>
    intro sched st h
    have h1 : BatchInv c (launchPhase c st) :=
      launchLoop_inv c st.queue st.inFlight st.results st.events h.1 h.2.1 h.2.2
    cases hfi : (launchPhase c st).inFlight with
    | nil =>
      simp only [runLoop, hfi]
      split_ifs <;> exact h1
    | cons f0 rest =>
      have hb := h1.2.1
      have hc2 := h1.2.2
      rw [hfi] at hb hc2
      have hlenpos : 0 < (f0 :: rest).length := by simp
      have hj : (sched.headD 0) % (f0 :: rest).length < (f0 :: rest).length :=
        Nat.mod_lt _ hlenpos
      have hA : chkBound c 0 ((launchPhase c st).events ++
          [.settled ((f0 :: rest).getD ((sched.headD 0) % (f0 :: rest).length) f0)]) =
          true := by
        rw [chkBound_append, h1.1]
        simp [chkBound]
      have hB : kAfter 0 ((launchPhase c st).events ++
          [.settled ((f0 :: rest).getD ((sched.headD 0) % (f0 :: rest).length) f0)]) =
          ((f0 :: rest).eraseIdx ((sched.headD 0) % (f0 :: rest).length)).length := by
        rw [kAfter_append, hb]
        simp only [kAfter, List.foldl_cons, List.foldl_nil, evStep]
        rw [List.length_eraseIdx, if_pos hj]
      have hC : ((f0 :: rest).eraseIdx ((sched.headD 0) % (f0 :: rest).length)).length ≤ c := by
        rw [List.length_eraseIdx, if_pos hj]
        omega
      simp only [runLoop, hfi]
      split_ifs <;> first
        | exact ⟨hA, hB, hC⟩
        | (apply ih; exact ⟨hA, hB, hC⟩)

/-- Claim C8: throughout every batch_operation call the number of
in-flight operations never exceeds the concurrency argument: the event
trace of every run launches an operation only while the in-flight count
is strictly below concurrency, so the count stays at or below it at
every step of the scheduling loop.  The ids are assumed pairwise
distinct, as the tool schema requires, since the in-progress map of the
source is keyed by operation id. -/
theorem batch_inflight_bounded (ops : List BatchOp) (c : Nat) (coe : Bool)
    (sched : List Nat) (hids : (ops.map BatchOp.id).Nodup) :
    chkBound c 0 (runBatchLoop ops c coe sched).1.events = true :=
  (runLoop_inv c coe (ops.length + 1) sched ⟨ops, [], [], []⟩
    ⟨rfl, rfl, Nat.zero_le c⟩).1

/-- Claim C8 witness: a concrete three-operation run with concurrency 2
respects the bound. -/
theorem batch_inflight_bounded_witness :
    (([⟨"a", false, true⟩, ⟨"b", false, true⟩, ⟨"c", false, true⟩] :
        List BatchOp).map BatchOp.id).Nodup ∧
    chkBound 2 0 (runBatchLoop
        [⟨"a", false, true⟩, ⟨"b", false, true⟩, ⟨"c", false, true⟩]
        2 true [0, 0, 0]).1.events = true :=
  ⟨by decide,
   batch_inflight_bounded [⟨"a", false, true⟩, ⟨"b", false, true⟩, ⟨"c", false, true⟩]
     2 true [0, 0, 0] (by decide)⟩

/-- A member of a list either survives eraseIdx or is the element at the
erased index. -/
theorem mem_eraseIdx_or (l : List BatchOp) (j : Nat) (x d : BatchOp) (hx : x ∈ l) :
    x ∈ l.eraseIdx j ∨ x = l.getD j d := by
  induction l generalizing j with
  | nil => cases hx
  | cons a t ih =>
    cases j with
    | zero =>
      rcases List.mem_cons.mp hx with h | h
      · right; simpa [List.getD_cons_zero] using h
      · left; simpa [List.eraseIdx_cons_zero] using h
    | succ j =>
      rcases List.mem_cons.mp hx with h | h
      · left
        rw [List.eraseIdx_cons_succ, h]
        exact List.mem_cons_self a _
      · rcases ih j h with h2 | h2
        · left
          rw [List.eraseIdx_cons_succ]
          exact List.mem_cons_of_mem a h2
        · right; simpa [List.getD_cons_succ] using h2

/-- The launch loop preserves the accounting invariant: a dequeued
operation either moves into the in-progress map or is recorded as a
cached result under its own id. -/
theorem launchLoop_covered (ops : List BatchOp) (c : Nat) (q : List BatchOp) :
    ∀ (fl : List BatchOp) (rs : List BatchResult) (evs : List BatchEvent),
      (∀ op ∈ ops, (∃ r ∈ rs, r.id = op.id) ∨ op ∈ fl ∨ op ∈ q) →
      idsCovered ops (launchLoop c q fl rs evs) := by
  induction q with
  | nil =>
    intro fl rs evs h
    exact h
  | cons op rest ih =>
    intro fl rs evs h
    simp only [launchLoop]
    split_ifs with hlen hc
    · refine ih fl _ _ (fun x hx => ?_)
      rcases h x hx with hres | hfl | hq
      · obtain ⟨r, hr, hrid⟩ := hres
        exact Or.inl ⟨r, List.mem_append_left _ hr, hrid⟩
      · exact Or.inr (Or.inl hfl)
      · rcases List.mem_cons.mp hq with hxop | hxrest
        · exact Or.inl ⟨⟨op.id, true, true⟩,
            List.mem_append_right _ (List.mem_cons_self _ _), by rw [hxop]⟩
        · exact Or.inr (Or.inr hxrest)
    · refine ih (fl ++ [op]) _ _ (fun x hx => ?_)
      rcases h x hx with hres | hfl | hq
      · exact Or.inl hres
      · exact Or.inr (Or.inl (List.mem_append_left _ hfl))
      · rcases List.mem_cons.mp hq with hxop | hxrest
        · exact Or.inr (Or.inl (List.mem_append_right _ (by rw [hxop]; exact List.mem_cons_self _ _)))
        · exact Or.inr (Or.inr hxrest)
    · exact h

/-- A run that exits with finished preserves the accounting invariant
and ends with an empty queue and an empty in-progress map. -/
theorem runLoop_finished (ops : List BatchOp) (c : Nat) (coe : Bool) (fuel : Nat) :
    ∀ (sched : List Nat) (st : BatchState), idsCovered ops st →
      (runLoop c coe fuel sched st).2 = .finished →
      idsCovered ops (runLoop c coe fuel sched st).1 ∧
      (runLoop c coe fuel sched st).1.inFlight = [] ∧
      (runLoop c coe fuel sched st).1.queue = [] := by
  induction fuel with
  | zero =>
    intro sched st _ hfin
    simp only [runLoop] at hfin
    cases hfin
  | succ n ih =>
    intro sched st h hfin
    have h1 : idsCovered ops (launchPhase c st) :=
      launchLoop_covered ops c st.queue st.inFlight st.results st.events h
    cases hfi : (launchPhase c st).inFlight with
    | nil =>
      simp only [runLoop, hfi] at hfin ⊢
      by_cases hq : (launchPhase c st).queue.isEmpty = true
      · rw [if_pos hq] at hfin ⊢
        exact ⟨h1, hfi, List.isEmpty_iff.mp hq⟩
      · rw [if_neg hq] at hfin
        cases hfin
    | cons f0 rest =>
      simp only [runLoop, hfi] at hfin ⊢
      by_cases hok : ((f0 :: rest).getD ((sched.headD 0) % (f0 :: rest).length) f0).ok = true
      · have hqok : (((f0 :: rest).getD ((sched.headD 0) % (f0 :: rest).length) f0).ok || coe) =
            true := by simp only [hok, Bool.true_or]
        have hcov2 : idsCovered ops
            { queue := if ((f0 :: rest).getD ((sched.headD 0) % (f0 :: rest).length) f0).ok || coe
                then (launchPhase c st).queue else []
              inFlight := (f0 :: rest).eraseIdx ((sched.headD 0) % (f0 :: rest).length)
              results := (launchPhase c st).results ++
                [⟨((f0 :: rest).getD ((sched.headD 0) % (f0 :: rest).length) f0).id,
                  ((f0 :: rest).getD ((sched.headD 0) % (f0 :: rest).length) f0).ok, false⟩]
              events := (launchPhase c st).events ++
                [.settled ((f0 :: rest).getD ((sched.headD 0) % (f0 :: rest).length) f0)] } := by
          intro x hx
          rcases h1 x hx with hres | hfl | hq
          · obtain ⟨r, hr, hrid⟩ := hres
            exact Or.inl ⟨r, List.mem_append_left _ hr, hrid⟩
          · rw [hfi] at hfl
            rcases mem_eraseIdx_or (f0 :: rest) ((sched.headD 0) % (f0 :: rest).length) x f0 hfl
              with h2 | h2
            · exact Or.inr (Or.inl h2)
            · refine Or.inl ⟨⟨((f0 :: rest).getD ((sched.headD 0) % (f0 :: rest).length) f0).id,
                ((f0 :: rest).getD ((sched.headD 0) % (f0 :: rest).length) f0).ok, false⟩,
                List.mem_append_right _ (List.mem_cons_self _ _), by rw [h2]⟩
          · refine Or.inr (Or.inr ?_)
            show x ∈ (if ((f0 :: rest).getD ((sched.headD 0) % (f0 :: rest).length) f0).ok || coe
              then (launchPhase c st).queue else [])
            rw [if_pos hqok]
            exact hq
        rw [if_pos hok] at hfin ⊢
        exact ih sched.tail _ hcov2 hfin
      · rw [if_neg hok] at hfin
        cases hfin

/-- The launch phase never increases the total number of queued plus
in-flight operations. -/
theorem launchLoop_measure (c : Nat) (q : List BatchOp) :
    ∀ (fl : List BatchOp) (rs : List BatchResult) (evs : List BatchEvent),
      (launchLoop c q fl rs evs).queue.length + (launchLoop c q fl rs evs).inFlight.length ≤
        q.length + fl.length := by
  induction q with
  | nil => intro fl rs evs; simp [launchLoop]
  | cons op rest ih =>
    intro fl rs evs
    simp only [launchLoop]
    split_ifs with hlen hc
    · have := ih fl (rs ++ [⟨op.id, true, true⟩]) (evs ++ [.cacheHit op])
      simp only [List.length_cons]
      omega
    · have := ih (fl ++ [op]) rs (evs ++ [.launched op])
      simp only [List.length_append, List.length_cons, List.length_nil] at this ⊢
      omega
    · simp

/-- With fuel strictly above the number of queued plus in-flight
operations, the scheduling loop never runs out of fuel: the iteration
bound of the model is never the reason a run ends. -/
theorem runLoop_exit_ne_outOfFuel (c : Nat) (coe : Bool) (fuel : Nat) :
    ∀ (sched : List Nat) (st : BatchState),
      st.queue.length + st.inFlight.length < fuel →
      (runLoop c coe fuel sched st).2 ≠ .outOfFuel := by
  induction fuel with
  | zero => intro sched st hlt; omega
  | succ n ih =>
    intro sched st hlt
    have hm := launchLoop_measure c st.queue st.inFlight st.results st.events
    cases hfi : (launchPhase c st).inFlight with
    | nil =>
      simp only [runLoop, hfi]
      split_ifs <;> simp
    | cons f0 rest =>
      have hlenpos : 0 < (f0 :: rest).length := by simp
      have hj : (sched.headD 0) % (f0 :: rest).length < (f0 :: rest).length :=
        Nat.mod_lt _ hlenpos
      have hm2 : (launchPhase c st).queue.length + (f0 :: rest).length ≤
          st.queue.length + st.inFlight.length := by
        rw [← hfi]
        exact hm
      simp only [runLoop, hfi]
      by_cases hok : ((f0 :: rest).getD ((sched.headD 0) % (f0 :: rest).length) f0).ok = true
      · rw [if_pos hok]
        apply ih
        show (if ((f0 :: rest).getD ((sched.headD 0) % (f0 :: rest).length) f0).ok || coe
              then (launchPhase c st).queue else []).length +
            ((f0 :: rest).eraseIdx ((sched.headD 0) % (f0 :: rest).length)).length < n
        rw [List.length_eraseIdx, if_pos hj]
        by_cases hqok : (((f0 :: rest).getD ((sched.headD 0) % (f0 :: rest).length) f0).ok || coe) = true
        · rw [if_pos hqok]
          simp only [List.length_cons] at hm2 ⊢
          omega
        · rw [if_neg hqok]
          simp only [List.length_cons, List.length_nil] at hm2 ⊢
          omega
      · rw [if_neg hok]
        simp

/-- Claim C1 counterexample: a batch_operation call on a single operation
with a distinct id whose work loses the race against its timeout does not
return a results array at all, matching or otherwise: the awaited
Promise.race of the in-progress promises rejects (lines 616-618 carry no
rejection handler), so the call throws McpError InternalError
(lines 692-701). -/
theorem batch_results_order_cex :
    batch_operation [⟨"a", false, false⟩] 1 true [0] =
      .errored "Tool execution failed: Operation a timed out" := by
  decide

/-- Claim C1 as amended: whenever a batch_operation call on operations
with pairwise-distinct ids returns a results array — which it does
exactly when no launched operation fails — that array has the same
length as the input operations array and its id sequence equals the
input id sequence in order, regardless of the settlement schedule and of
which operations were served from the cache; a call in which some
operation fails throws an internal error instead of returning an
array. -/
theorem batch_ok_results_match_input_order (ops : List BatchOp) (c : Nat) (coe : Bool)
    (sched : List Nat) (rs : List (Option BatchResult))
    (hids : (ops.map BatchOp.id).Nodup)
    (hok : batch_operation ops c coe sched = .ok rs) :
    rs.length = ops.length ∧
    rs.map (Option.map BatchResult.id) = ops.map (fun op => some op.id) := by
  unfold batch_operation at hok
  rcases hrun : runBatchLoop ops c coe sched with ⟨st2, ex⟩
  rw [hrun] at hok
  cases ex with
  | finished =>
    simp only [BatchOutcome.ok.injEq] at hok
    subst hok
    have hrun2 : runLoop c coe (ops.length + 1) sched ⟨ops, [], [], []⟩ = (st2, .finished) :=
      hrun
    have hfin2 : (runLoop c coe (ops.length + 1) sched ⟨ops, [], [], []⟩).2 = .finished := by
      rw [hrun2]
    have hinit : idsCovered ops ⟨ops, [], [], []⟩ := fun op hop => Or.inr (Or.inr hop)
    obtain ⟨hcov, hfl, hq⟩ :=
      runLoop_finished ops c coe (ops.length + 1) sched ⟨ops, [], [], []⟩ hinit hfin2
    rw [hrun2] at hcov hfl hq
    have hres : ∀ op ∈ ops, ∃ r ∈ st2.results, r.id = op.id := by
      intro op hop
      rcases hcov op hop with h | h | h
      · exact h
      · rw [hfl] at h; cases h
      · rw [hq] at h; cases h
    refine ⟨by simp [sortedResults], ?_⟩
    simp only [sortedResults, List.map_map]
    apply List.map_congr_left
    intro op hop
    obtain ⟨r, hr, hrid⟩ := hres op hop
    have hsome : (st2.results.find? (fun r => r.id == op.id)).isSome = true := by
      rw [List.find?_isSome]
      exact ⟨r, hr, by simp [hrid]⟩
    obtain ⟨r2, hr2⟩ := Option.isSome_iff_exists.mp hsome
    have hpid : r2.id = op.id := by simpa using List.find?_some hr2
    simp [Function.comp, hr2, hpid]
  | stuck => cases hok
  | aborted m => cases hok
  | outOfFuel => cases hok

/-- Claim C1 witness: a two-operation run with distinct ids that returns
an array has matching length and id sequence. -/
theorem batch_ok_results_match_input_order_witness :
    (([⟨"a", false, true⟩, ⟨"b", false, true⟩] : List BatchOp).map BatchOp.id).Nodup ∧
    batch_operation [⟨"a", false, true⟩, ⟨"b", false, true⟩] 2 true [0, 0] =
      .ok [some ⟨"a", true, false⟩, some ⟨"b", true, false⟩] ∧
    ([some (⟨"a", true, false⟩ : BatchResult), some ⟨"b", true, false⟩].length =
        ([⟨"a", false, true⟩, ⟨"b", false, true⟩] : List BatchOp).length ∧
      [some (⟨"a", true, false⟩ : BatchResult), some ⟨"b", true, false⟩].map
          (Option.map BatchResult.id) =
        ([⟨"a", false, true⟩, ⟨"b", false, true⟩] : List BatchOp).map
          (fun op => some op.id)) :=
  ⟨by decide, by decide,
   batch_ok_results_match_input_order [⟨"a", false, true⟩, ⟨"b", false, true⟩] 2 true
     [0, 0] [some ⟨"a", true, false⟩, some ⟨"b", true, false⟩] (by decide) (by decide)⟩

/-- Claim C7 at its failing input: five operations with concurrency 2 and
continue_on_error false, where operation B (the second) fails after A has
settled and C has been launched.  The settlement of B does clear the
pending queue (D and E are never started) and A and B results were
recorded, but the whole call then throws McpError InternalError because
the awaited Promise.race of the in-progress promises rejects with no
handler (lines 616-618, 692-701): the recorded results are discarded and
nothing is preserved in any output, contrary to the claim. -/
theorem batch_failure_aborts_whole_call :
    batch_operation
        [⟨"A", false, true⟩, ⟨"B", false, false⟩, ⟨"C", false, true⟩,
         ⟨"D", false, true⟩, ⟨"E", false, true⟩] 2 false [0, 0] =
      .errored "Tool execution failed: Operation B timed out" ∧
    (runBatchLoop
        [⟨"A", false, true⟩, ⟨"B", false, false⟩, ⟨"C", false, true⟩,
         ⟨"D", false, true⟩, ⟨"E", false, true⟩] 2 false [0, 0]).1.results =
      [⟨"A", true, false⟩, ⟨"B", false, false⟩] ∧
    (runBatchLoop
        [⟨"A", false, true⟩, ⟨"B", false, false⟩, ⟨"C", false, true⟩,
         ⟨"D", false, true⟩, ⟨"E", false, true⟩] 2 false [0, 0]).1.queue = [] ∧
    (runBatchLoop
        [⟨"A", false, true⟩, ⟨"B", false, false⟩, ⟨"C", false, true⟩,
         ⟨"D", false, true⟩, ⟨"E", false, true⟩] 2 false [0, 0]).1.inFlight =
      [⟨"C", false, true⟩] := by
  decide

end McpUtility
